import Mathlib

/-!
# usb-worker.js: the inbound transfer loop and the command dispatcher

A shallow embedding of `src/usb-worker.js`.

* JavaScript strings produced by `TextDecoder` are well-formed, so they are
  modelled as Lean `String`s (sequences of code points); the prefixes the
  worker tests for are ASCII, hence `startsWith` / `substring` on UTF-16 code
  units and on code points agree.
* `Date.now()` returns an integral number of milliseconds, modelled as `Int`.
* `parseInt` returns a JavaScript Number; the values it can return are
  modelled by `JSNum`, with the rounding of the mathematical integer to the
  nearest double made explicit (`roundToDouble`).
* Asynchronous calls into WebUSB are modelled by their outcomes, supplied as
  inputs (`Tick`, `Env`), and by an effect trace recording the calls and
  the posted messages in program order.
-/

namespace UsbWorker

/-! ## JavaScript numbers and `parseInt` -/

/-- The JavaScript Number values that `parseInt` can return: NaN, the two
infinities, negative zero and the doubles with an integral value. -/
inductive JSNum where
  | nan
  | posInf
  | negInf
  | negZero
  | int (v : Int)
  deriving DecidableEq, Repr

/-- `isNaN(val)` for a Number `val`. -/
def JSNum.isNaN : JSNum → Bool
  | .nan => true
  | _ => false

/-- The mathematical value of a finite Number (negative zero is zero). -/
def JSNum.value? : JSNum → Option Int
  | .int v => some v
  | .negZero => some 0
  | _ => none

/-- Code points removed by `TrimString(…, start)`: ECMAScript WhiteSpace
(TAB, VT, FF, ZWNBSP and the Unicode category Zs) and LineTerminator
(LF, CR, LS, PS). -/
def isWhiteSpace (c : Char) : Bool :=
  let n := c.toNat
  n == 0x09 || n == 0x0A || n == 0x0B || n == 0x0C || n == 0x0D || n == 0x20 ||
  n == 0xA0 || n == 0x1680 || (0x2000 ≤ n && n ≤ 0x200A) || n == 0x2028 ||
  n == 0x2029 || n == 0x202F || n == 0x205F || n == 0x3000 || n == 0xFEFF

/-- Value of a code point as a digit: `0`-`9`, then `a`-`z` / `A`-`Z` for 10-35. -/
def digitValue (c : Char) : Option Nat :=
  let n := c.toNat
  if 48 ≤ n ∧ n ≤ 57 then some (n - 48)
  else if 97 ≤ n ∧ n ≤ 122 then some (n - 97 + 10)
  else if 65 ≤ n ∧ n ≤ 90 then some (n - 65 + 10)
  else none

/-- Whether `c` is a radix-`R` digit. -/
def isRadixDigit (R : Nat) (c : Char) : Bool :=
  match digitValue c with
  | some d => decide (d < R)
  | none => false

/-- The integer denoted by the digit string `Z` in radix `R`. -/
def mathInt (R : Nat) (Z : List Char) : Nat :=
  Z.foldl (fun acc c => acc * R + (digitValue c).getD 0) 0

/-- Number of binary digits of `m`, by repeated halving (`fuel` bounds the
number of halvings). -/
def bitLengthAux : Nat → Nat → Nat
  | 0, _ => 0
  | fuel + 1, m => if m = 0 then 0 else bitLengthAux fuel (m / 2) + 1

/-- Number of binary digits of `m` (`0` for `m = 0`). -/
def bitLength (m : Nat) : Nat := bitLengthAux m m

/-- Round a positive integer to the nearest IEEE-754 double (53 significant
bits, ties to even); the result is again an integer. -/
def roundToDouble (m : Nat) : Nat :=
  let bits := bitLength m
  if bits ≤ 53 then m
  else
    let e := bits - 53
    let q := m / 2 ^ e
    let r := m % 2 ^ e
    let half := 2 ^ (e - 1)
    let q1 := if half < r ∨ (r = half ∧ q % 2 = 1) then q + 1 else q
    q1 * 2 ^ e

/-- The Number value of `sign × m` (steps 13-14 of `parseInt`): signed zero for
`m = 0`, otherwise the nearest double, which is an infinity from `2 ^ 1024` on
(that is, when it has more than 1024 binary digits). -/
def toNumber (negative : Bool) (m : Nat) : JSNum :=
  if m = 0 then (if negative then .negZero else .int 0)
  else
    let d := roundToDouble m
    if 1024 < bitLength d then (if negative then .negInf else .posInf)
    else .int (if negative then -(d : Int) else (d : Int))

/-- Steps 3-4 of `parseInt`: read and remove one leading sign. -/
def splitSign : List Char → Bool × List Char
  | '-' :: s => (true, s)
  | '+' :: s => (false, s)
  | s => (false, s)

/-- Steps 5-8 of `parseInt` with the radix argument absent: radix 10, or radix
16 after removing a leading `0x` / `0X`. -/
def splitRadix : List Char → Nat × List Char
  | '0' :: 'x' :: s => (16, s)
  | '0' :: 'X' :: s => (16, s)
  | s => (10, s)

/-- ECMAScript `parseInt(string)` with no radix argument, on the code points of
the string: trim leading white space, read a sign, choose the radix, take the
longest run of digits, NaN when it is empty. The digits are given their exact
mathematical value before rounding (past 20 significant digits the standard
also allows an approximation of it). -/
def parseIntChars (input : List Char) : JSNum :=
  let s := input.dropWhile isWhiteSpace
  let (negative, s) := splitSign s
  let (R, s) := splitRadix s
  let Z := s.takeWhile (isRadixDigit R)
  if Z.isEmpty then .nan else toNumber negative (mathInt R Z)

/-- The global function `parseInt` applied to a string. -/
def parseInt (s : String) : JSNum := parseIntChars s.toList

/-! ## Strings -/

/-- `text.startsWith(pre)`. -/
def startsWith (text pre : String) : Bool := pre.toList.isPrefixOf text.toList

/-- `text.substring(n)`: the string without its first `n` characters. -/
def substring (text : String) (n : Nat) : String := String.mk (text.toList.drop n)

/-! ## Messages and effects -/

/-- Messages the worker posts to the main thread with `self.postMessage`,
by their `type` field, with their `data`. -/
inductive Event where
  | error (data : String)
  | status (data : String)
  | uart1Rx (data : String)
  | waveData (data : List JSNum)
  deriving DecidableEq, Repr

/-- The observable actions of the worker, recorded in program order. -/
inductive Effect where
  | getDevices
  | deviceOpen
  | selectConfiguration (configuration : Nat)
  | claimInterface (interface : Nat)
  | deviceClose
  | transferOut (endpoint : Nat) (payload : List Nat)
  | transferIn (endpoint : Nat) (length : Nat)
  | postMessage (e : Event)
  | consoleLog
  | consoleError
  | startReadLoop
  deriving DecidableEq, Repr

/-- Whether an effect is a `self.postMessage` call. -/
def Effect.isPost : Effect → Bool
  | .postMessage _ => true
  | _ => false

/-- Whether an effect is a `transferIn` call. -/
def Effect.isRead : Effect → Bool
  | .transferIn _ _ => true
  | _ => false

/-- The messages posted by a trace, in order. -/
def posted (effects : List Effect) : List Event :=
  effects.filterMap fun
    | .postMessage e => some e
    | _ => none

/-- The `WAVE_DATA` payloads posted by a trace, in order. -/
def waveBatches (effects : List Effect) : List (List JSNum) :=
  effects.filterMap fun
    | .postMessage (.waveData b) => some b
    | _ => none

/-- Line 5: `const IN_EP = 1`. -/
def IN_EP : Nat := 1

/-- Line 6: `const OUT_EP = 1`. -/
def OUT_EP : Nat := 1

/-! ## The read loop (`startReadLoop`, lines 53-94) -/

/-- The local variables of `startReadLoop` (lines 55-56). -/
structure LoopState where
  waveBuffer : List JSNum
  lastSendTime : Int
  deriving DecidableEq, Repr

/-- A flush, with the two clock readings that bracket its `postMessage`: the
`Date.now()` of the test on line 80 and the `Date.now()` stored on line 83. -/
structure Flush where
  checkedAt : Int
  resetAt : Int
  deriving DecidableEq, Repr

/-- What one pass through the loop body does. -/
structure Step where
  state : LoopState
  effects : List Effect
  flushes : List Flush
  stop : Bool
  deriving DecidableEq, Repr

/-- Lines 73-76: parse the text after `W:` and push the value unless it is NaN. -/
def pushSample (waveBuffer : List JSNum) (rest : String) : List JSNum :=
  let val := parseInt rest
  if !val.isNaN then waveBuffer ++ [val] else waveBuffer

/-- Lines 80-84: the flush check. `now` is the clock reading of line 80 and
`now2` the one of line 83. -/
def flushCheck (st : LoopState) (now now2 : Int) : Step :=
  if now - st.lastSendTime > 30 ∧ st.waveBuffer.length > 0 then
    { state := { waveBuffer := [], lastSendTime := now2 }
      effects := [.postMessage (.waveData st.waveBuffer)]
      flushes := [{ checkedAt := now, resetAt := now2 }]
      stop := false }
  else
    { state := st, effects := [], flushes := [], stop := false }

/-- Lines 64-87: the protocol branches applied to the decoded text of a chunk. -/
def handleChunk (st : LoopState) (textData : String) (now now2 : Int) : Step :=
  if startsWith textData "U1:" then
    { state := st
      effects := [.postMessage (.uart1Rx (substring textData 3 ++ "\n"))]
      flushes := [], stop := false }
  else if startsWith textData "W:" then
    flushCheck { st with waveBuffer := pushSample st.waveBuffer (substring textData 2) } now now2
  else
    { state := st, effects := [], flushes := [], stop := false }

/-- What the environment supplies to one iteration of the `while` loop:
the value of `usbDevice && usbDevice.opened` at the loop head, the outcome of
`transferIn` (the decoded text of the chunk, or `none` when the `try` block
throws), and the values `Date.now()` has on lines 80 and 83. -/
structure Tick where
  opened : Bool
  poll : Option String
  now : Int
  now2 : Int
  deriving DecidableEq, Repr

/-- Lines 59-92: one pass through the loop body. -/
def iteration (st : LoopState) (t : Tick) : Step :=
  match t.poll with
  | none =>
    { state := st, effects := [.transferIn IN_EP 64, .consoleLog], flushes := [], stop := true }
  | some textData =>
    let r := handleChunk st textData t.now t.now2
    { r with effects := .transferIn IN_EP 64 :: r.effects }

/-- A run of the loop over the inputs supplied so far. `stopped` tells whether
the loop has exited; otherwise it is waiting for its next input. `received`
lists the decoded chunks in arrival order. -/
structure Run where
  state : LoopState
  effects : List Effect
  flushes : List Flush
  received : List String
  stopped : Bool
  deriving DecidableEq, Repr

/-- Lines 58-93: the `while` loop from a given state. -/
def readLoop (st : LoopState) : List Tick → Run
  | [] => { state := st, effects := [], flushes := [], received := [], stopped := false }
  | t :: ts =>
    if !t.opened then
      { state := st, effects := [], flushes := [], received := [], stopped := true }
    else
      let r := iteration st t
      if r.stop then
        { state := r.state, effects := r.effects, flushes := r.flushes, received := [],
          stopped := true }
      else
        let rest := readLoop r.state ts
        { state := rest.state
          effects := r.effects ++ rest.effects
          flushes := r.flushes ++ rest.flushes
          received := t.poll.toList ++ rest.received
          stopped := rest.stopped }

/-- Lines 53-94: `startReadLoop()`, where `start` is the `Date.now()` of line 56. -/
def startReadLoop (start : Int) (ticks : List Tick) : Run :=
  readLoop { waveBuffer := [], lastSendTime := start } ticks

/-! ## The command dispatcher (`self.onmessage`, lines 9-50) -/

/-- A `USBDevice` object, with its `opened` attribute. -/
structure Device where
  id : Nat
  opened : Bool
  deriving DecidableEq, Repr

/-- The module-level state (line 4): `usbDevice`, `none` for `null`. -/
structure Worker where
  usbDevice : Option Device
  deriving DecidableEq, Repr

/-- The `cmd` field of a message, with the payload of `SEND_DATA`. -/
inductive Command where
  | connect
  | disconnect
  | sendData (payload : List Nat)
  | other
  deriving DecidableEq, Repr

/-- Outcomes of the WebUSB calls made while handling one message: the devices
`getDevices()` resolves with, or the message of the error a call rejects with. -/
structure Env where
  getDevices : Except String (List Device)
  deviceOpen : Option String
  selectConfiguration : Option String
  claimInterface : Option String
  closeRejects : Bool
  transferOutRejects : Bool

/-- Lines 12-32: the `CONNECT` branch. -/
def onConnect (w : Worker) (env : Env) : Worker × List Effect :=
  match env.getDevices with
  | .error msg => (w, [.getDevices, .postMessage (.error msg)])
  | .ok [] => (w, [.getDevices, .postMessage (.error "未找到已授权的设备")])
  | .ok (d :: _) =>
    match env.deviceOpen with
    | some msg =>
      ({ usbDevice := some d }, [.getDevices, .deviceOpen, .postMessage (.error msg)])
    | none =>
      let d := { d with opened := true }
      match env.selectConfiguration with
      | some msg =>
        ({ usbDevice := some d },
          [.getDevices, .deviceOpen, .selectConfiguration 1, .postMessage (.error msg)])
      | none =>
        match env.claimInterface with
        | some msg =>
          ({ usbDevice := some d },
            [.getDevices, .deviceOpen, .selectConfiguration 1, .claimInterface 0,
              .postMessage (.error msg)])
        | none =>
          ({ usbDevice := some d },
            [.getDevices, .deviceOpen, .selectConfiguration 1, .claimInterface 0,
              .postMessage (.status "CONNECTED"), .startReadLoop])

/-- Lines 33-39: the `DISCONNECT` branch. -/
def onDisconnect (w : Worker) (env : Env) : Worker × List Effect :=
  match w.usbDevice with
  | none => (w, [])
  | some _ =>
    if env.closeRejects then (w, [.deviceClose])
    else ({ usbDevice := none }, [.deviceClose, .postMessage (.status "DISCONNECTED")])

/-- Lines 40-49: the `SEND_DATA` branch. -/
def onSendData (w : Worker) (env : Env) (payload : List Nat) : Worker × List Effect :=
  match w.usbDevice with
  | none => (w, [])
  | some d =>
    if d.opened then
      if env.transferOutRejects then (w, [.transferOut OUT_EP payload, .consoleError])
      else (w, [.transferOut OUT_EP payload])
    else (w, [])

/-- Lines 9-50: `self.onmessage`. -/
def onmessage (w : Worker) (env : Env) : Command → Worker × List Effect
  | .connect => onConnect w env
  | .disconnect => onDisconnect w env
  | .sendData payload => onSendData w env payload
  | .other => (w, [])

/-! ## Notions of the specification -/

/-- Whether `c` is one of the ASCII digits `0`-`9`. -/
def isAsciiDigit (c : Char) : Bool := decide (48 ≤ c.toNat ∧ c.toNat ≤ 57)

/-- A decimal integer string: an optional sign `+` or `-` followed by one or
more ASCII digits. Returns whether the sign is `-`, and the digits. -/
def decimalParts (r : String) : Option (Bool × List Char) :=
  let check (negative : Bool) (ds : List Char) : Option (Bool × List Char) :=
    if !ds.isEmpty && ds.all isAsciiDigit then some (negative, ds) else none
  match r.toList with
  | '-' :: ds => check true ds
  | '+' :: ds => check false ds
  | ds => check false ds

/-- The natural number written by a list of ASCII digits. -/
def digitsValue (ds : List Char) : Nat :=
  ds.foldl (fun acc c => 10 * acc + (c.toNat - 48)) 0

/-- The integer a decimal integer string denotes, when it is one. -/
def decimalValue (r : String) : Option Int :=
  (decimalParts r).map fun (negative, ds) =>
    if negative then -(digitsValue ds : Int) else (digitsValue ds : Int)

/-- The sample value a chunk carries: the number parsed from the text after
`W:`, when the chunk starts with `W:` and the number is not NaN. -/
def sampleOf (textData : String) : Option JSNum :=
  if startsWith textData "W:" then
    let val := parseInt (substring textData 2)
    if val.isNaN then none else some val
  else none

/-- Clock readings do not go backwards: from the start of the loop on, the
reading of line 80 on an iteration is at least the previous reading, and the
reading of line 83 at least that of line 80. -/
def ClockMonotone : Int → List Tick → Prop
  | _, [] => True
  | start, t :: ts => start ≤ t.now ∧ t.now ≤ t.now2 ∧ ClockMonotone t.now2 ts

/-- Whether `c` is a hexadecimal digit: `0`-`9`, `a`-`f` or `A`-`F`. -/
def isHexDigit (c : Char) : Bool :=
  decide ((48 ≤ c.toNat ∧ c.toNat ≤ 57) ∨ (97 ≤ c.toNat ∧ c.toNat ≤ 102) ∨
    (65 ≤ c.toNat ∧ c.toNat ≤ 70))

/-- The text is empty or starts with a character that is not a digit in the
sense of `p`. -/
def lacksDigit (p : Char → Bool) : List Char → Bool
  | [] => true
  | c :: _ => !p c

/-- An unsigned text without a number at its beginning: after `0x` or `0X` no
hexadecimal digit follows, or else the text does not start with a decimal digit. -/
def lacksNumberChars : List Char → Bool
  | '0' :: 'x' :: s => lacksDigit isHexDigit s
  | '0' :: 'X' :: s => lacksDigit isHexDigit s
  | s => lacksDigit isAsciiDigit s

/-- Text without a number at its beginning: what follows the leading white
space and one optional sign has no number at its beginning. -/
def lacksNumber (r : String) : Bool :=
  lacksNumberChars (splitSign (r.toList.dropWhile isWhiteSpace)).2

/-- An integer that is exactly a double: its absolute value is a natural number
of at most 53 binary digits times a power of two with exponent at most 971. -/
def IsDoubleInt (N : Int) : Prop :=
  ∃ q e : Nat, q < 2 ^ 53 ∧ e ≤ 971 ∧ N.natAbs = q * 2 ^ e

/-- Two successive flushes `a`, `b` are more than 30 ms apart: the `postMessage`
of each happens between its two clock readings, and the first reading of `b`
exceeds the last reading of `a` by more than 30. -/
def Separated (a b : Flush) : Prop :=
  a.checkedAt ≤ a.resetAt ∧ b.checkedAt - a.resetAt > 30 ∧ b.checkedAt ≤ b.resetAt

/-! ## Strings: helper lemmas -/

theorem toList_append (a b : String) : (a ++ b).toList = a.toList ++ b.toList := by
  simp [String.toList, String.data_append]

theorem startsWith_append_self (pre r : String) : startsWith (pre ++ r) pre = true := by
  simp [startsWith, toList_append]

theorem substring_append_length (pre r : String) :
    substring (pre ++ r) pre.toList.length = r := by
  simp [substring, toList_append, String.toList]

theorem startsWith_U1 (r : String) : startsWith ("U1:" ++ r) "U1:" = true :=
  startsWith_append_self _ _

theorem startsWith_W (r : String) : startsWith ("W:" ++ r) "W:" = true :=
  startsWith_append_self _ _

theorem substring_U1 (r : String) : substring ("U1:" ++ r) 3 = r :=
  substring_append_length "U1:" r

theorem substring_W (r : String) : substring ("W:" ++ r) 2 = r :=
  substring_append_length "W:" r

theorem not_startsWith_U1_of_W (text : String) (h : startsWith text "W:" = true) :
    startsWith text "U1:" = false := by
  unfold startsWith at *
  cases hl : text.toList with
  | nil => rw [hl] at h; simp [String.toList] at h
  | cons c cs =>
    rw [hl] at h
    have hc : c = 'W' := by
      have := List.isPrefixOf_iff_prefix.mp h
      obtain ⟨t, ht⟩ := this
      simp [String.toList] at ht
      exact ht.1.symm
    subst hc
    simp [String.toList, List.isPrefixOf]

theorem handleChunk_W (st : LoopState) (r : String) (now now2 : Int) :
    handleChunk st ("W:" ++ r) now now2 =
      flushCheck { st with waveBuffer := pushSample st.waveBuffer r } now now2 := by
  unfold handleChunk
  rw [not_startsWith_U1_of_W _ (startsWith_W r), startsWith_W, substring_W]
  simp

/-! ## The flush check -/

/-- C1: the flush check posts a batch, empties the pending buffer and resets
the timestamp exactly when `now - lastSendTime > 30` and the buffer is
non-empty; otherwise it posts nothing and leaves buffer and timestamp as they
were, in particular whenever the buffer is empty. -/
theorem flushCheck_spec (st : LoopState) (now now2 : Int) :
    ((flushCheck st now now2).effects ≠ [] ↔
      (now - st.lastSendTime > 30 ∧ st.waveBuffer ≠ [])) ∧
    ((now - st.lastSendTime > 30 ∧ st.waveBuffer ≠ []) →
      (flushCheck st now now2).effects = [.postMessage (.waveData st.waveBuffer)] ∧
      (flushCheck st now now2).state = { waveBuffer := [], lastSendTime := now2 }) ∧
    (¬ (now - st.lastSendTime > 30 ∧ st.waveBuffer ≠ []) →
      (flushCheck st now now2).effects = [] ∧ (flushCheck st now now2).state = st) ∧
    (st.waveBuffer = [] →
      (flushCheck st now now2).effects = [] ∧ (flushCheck st now now2).state = st) := by
  have hlen : st.waveBuffer.length > 0 ↔ st.waveBuffer ≠ [] := List.length_pos
  by_cases hc : now - st.lastSendTime > 30 ∧ st.waveBuffer ≠ []
  · have hc2 : now - st.lastSendTime > 30 ∧ st.waveBuffer.length > 0 := ⟨hc.1, hlen.mpr hc.2⟩
    simp only [flushCheck, if_pos hc2]
    refine ⟨?_, ?_, ?_, ?_⟩
    · simp [hc]
    · intro _; simp
    · intro h; exact absurd hc h
    · intro h; exact absurd h hc.2
  · have hc2 : ¬ (now - st.lastSendTime > 30 ∧ st.waveBuffer.length > 0) := by
      rw [hlen]; exact hc
    simp only [flushCheck, if_neg hc2]
    refine ⟨?_, ?_, ?_, ?_⟩
    · simp [hc]
    · intro h; exact absurd h hc
    · intro _; simp
    · intro _; simp

/-! ## Single iterations -/

/-- C5: on a chunk that starts with neither `U1:` nor `W:`, one iteration
posts nothing, leaves buffer and timestamp unchanged and does not leave the
loop: the loop goes on with the next input from the same state. -/
theorem iteration_unrecognized (st : LoopState) (t : Tick) (textData : String)
    (ts : List Tick) (hpoll : t.poll = some textData)
    (hU : startsWith textData "U1:" = false) (hW : startsWith textData "W:" = false) :
    posted (iteration st t).effects = [] ∧
    (iteration st t).state = st ∧
    (iteration st t).stop = false ∧
    (t.opened = true →
      (readLoop st (t :: ts)).state = (readLoop st ts).state ∧
      posted (readLoop st (t :: ts)).effects = posted (readLoop st ts).effects ∧
      (readLoop st (t :: ts)).stopped = (readLoop st ts).stopped) := by
  have hit : iteration st t =
      { state := st, effects := [.transferIn IN_EP 64], flushes := [], stop := false } := by
    simp [iteration, hpoll, handleChunk, hU, hW]
  refine ⟨by simp [hit, posted], by simp [hit], by simp [hit], ?_⟩
  intro ho
  simp [readLoop, ho, hit, posted]

/-- C6: on a chunk `U1:` followed by `r`, one iteration posts exactly one
message, `UART1_RX` with `r` followed by a newline, in that same iteration, and
leaves the sample buffer and the timestamp as they were. -/
theorem iteration_uart1 (st : LoopState) (r : String) (opened : Bool) (now now2 : Int) :
    iteration st { opened := opened, poll := some ("U1:" ++ r), now := now, now2 := now2 } =
      { state := st
        effects := [.transferIn IN_EP 64, .postMessage (.uart1Rx (r ++ "\n"))]
        flushes := [], stop := false } ∧
    posted (iteration st
      { opened := opened, poll := some ("U1:" ++ r), now := now, now2 := now2 }).effects =
      [.uart1Rx (r ++ "\n")] ∧
    posted (iteration { waveBuffer := [], lastSendTime := 0 }
      { opened := true, poll := some "U1:Hello", now := 0, now2 := 0 }).effects =
      [.uart1Rx "Hello\n"] := by
  have hit : iteration st
      { opened := opened, poll := some ("U1:" ++ r), now := now, now2 := now2 } =
      { state := st
        effects := [.transferIn IN_EP 64, .postMessage (.uart1Rx (r ++ "\n"))]
        flushes := [], stop := false } := by
    simp [iteration, handleChunk, startsWith_U1, substring_U1]
  refine ⟨hit, by rw [hit]; rfl, by decide⟩

/-- C7, as stated, fails: with one pending sample and 31 ms elapsed, the
unparsable chunk `W:abc` makes the iteration post a `WAVE_DATA` batch, empty the
buffer and reset the timestamp. -/
theorem iteration_wave_unparsed_flushes :
    parseInt "abc" = .nan ∧
    posted (iteration { waveBuffer := [.int 1], lastSendTime := 0 }
      { opened := true, poll := some "W:abc", now := 31, now2 := 32 }).effects =
      [.waveData [.int 1]] ∧
    (iteration { waveBuffer := [.int 1], lastSendTime := 0 }
      { opened := true, poll := some "W:abc", now := 31, now2 := 32 }).state =
      { waveBuffer := [], lastSendTime := 32 } := by
  decide

/-- C7 (amended): on a chunk `W:` followed by text that `parseInt` maps to NaN,
one iteration pushes nothing and then runs the flush check on the unchanged
buffer; it posts nothing and leaves buffer and timestamp unchanged unless more
than 30 ms have elapsed and the buffer is non-empty. -/
theorem iteration_wave_unparsed (st : LoopState) (r : String) (opened : Bool)
    (now now2 : Int) (hnan : parseInt r = .nan) :
    iteration st { opened := opened, poll := some ("W:" ++ r), now := now, now2 := now2 } =
      { flushCheck st now now2 with
        effects := .transferIn IN_EP 64 :: (flushCheck st now now2).effects } ∧
    (¬ (now - st.lastSendTime > 30 ∧ st.waveBuffer ≠ []) →
      posted (iteration st
        { opened := opened, poll := some ("W:" ++ r), now := now, now2 := now2 }).effects = [] ∧
      (iteration st
        { opened := opened, poll := some ("W:" ++ r), now := now, now2 := now2 }).state = st) := by
  have hit : iteration st
      { opened := opened, poll := some ("W:" ++ r), now := now, now2 := now2 } =
      { flushCheck st now now2 with
        effects := .transferIn IN_EP 64 :: (flushCheck st now now2).effects } := by
    simp [iteration, handleChunk_W, pushSample, hnan, JSNum.isNaN]
  refine ⟨hit, ?_⟩
  intro hc
  have hc2 : ¬ (now - st.lastSendTime > 30 ∧ st.waveBuffer.length > 0) :=
    fun h => hc ⟨h.1, List.length_pos.mp h.2⟩
  rw [hit]
  simp only [flushCheck, if_neg hc2]
  simp [posted]

/-- Witness for C7 (amended): `W:abc` on an empty buffer. -/
theorem iteration_wave_unparsed_witness :
    parseInt "abc" = .nan ∧
    iteration { waveBuffer := [], lastSendTime := 0 }
      { opened := true, poll := some ("W:" ++ "abc"), now := 40, now2 := 41 } =
      { flushCheck { waveBuffer := [], lastSendTime := 0 } 40 41 with
        effects := .transferIn IN_EP 64 ::
          (flushCheck { waveBuffer := [], lastSendTime := 0 } 40 41).effects } :=
  ⟨by decide,
    (iteration_wave_unparsed { waveBuffer := [], lastSendTime := 0 } "abc" true 40 41
      (by decide)).1⟩

/-! ## Failure of a poll -/

theorem readLoop_cons_continue (st : LoopState) (t : Tick) (ts : List Tick)
    (ho : t.opened = true) (hs : (iteration st t).stop = false) :
    readLoop st (t :: ts) =
      { state := (readLoop (iteration st t).state ts).state
        effects := (iteration st t).effects ++ (readLoop (iteration st t).state ts).effects
        flushes := (iteration st t).flushes ++ (readLoop (iteration st t).state ts).flushes
        received := t.poll.toList ++ (readLoop (iteration st t).state ts).received
        stopped := (readLoop (iteration st t).state ts).stopped } := by
  simp [readLoop, ho, hs]

theorem readLoop_failed_poll (st : LoopState) (t : Tick) (ts : List Tick)
    (hpoll : t.poll = none) :
    readLoop st (t :: ts) = readLoop st [t] ∧ (readLoop st [t]).stopped = true ∧
      posted (readLoop st [t]).effects = [] ∧
      ((readLoop st [t]).effects.filter Effect.isRead).length ≤ 1 := by
  cases ho : t.opened <;> simp [readLoop, ho, iteration, hpoll, posted, Effect.isRead]

/-- C9, as stated, fails: when the first poll fails the loop stops after that
one read, having posted no message at all (the failure is only logged). -/
theorem failed_poll_posts_nothing :
    (startReadLoop 0 [{ opened := true, poll := none, now := 0, now2 := 0 }]).stopped = true ∧
    (startReadLoop 0 [{ opened := true, poll := none, now := 0, now2 := 0 }]).effects =
      [.transferIn IN_EP 64, .consoleLog] ∧
    ¬ ∃ e, Effect.postMessage e ∈
      (startReadLoop 0 [{ opened := true, poll := none, now := 0, now2 := 0 }]).effects := by
  refine ⟨by decide, by decide, ?_⟩
  rintro ⟨e, he⟩
  have : (startReadLoop 0 [{ opened := true, poll := none, now := 0, now2 := 0 }]).effects =
      [.transferIn IN_EP 64, .consoleLog] := by decide
  rw [this] at he
  simp at he

/-- C9 (amended): when a poll fails, the loop stops there: whatever inputs
follow are not consumed (no further read, no retry), and the failing iteration
posts no message. -/
theorem readLoop_stops_on_failure (st : LoopState) (pre : List Tick) (t : Tick)
    (ts : List Tick) (hpoll : t.poll = none) :
    readLoop st (pre ++ t :: ts) = readLoop st (pre ++ [t]) ∧
    (readLoop st (pre ++ [t])).stopped = true ∧
    posted (readLoop st (pre ++ [t])).effects = posted (readLoop st pre).effects ∧
    ((readLoop st (pre ++ t :: ts)).effects.filter Effect.isRead).length ≤ pre.length + 1 := by
  induction pre generalizing st with
  | nil =>
    obtain ⟨h1, h2, h3, h4⟩ := readLoop_failed_poll st t ts hpoll
    refine ⟨by simpa using h1, by simpa using h2, by simpa [readLoop, posted] using h3, ?_⟩
    simp only [List.nil_append, h1]
    simpa using h4
  | cons p pre ih =>
    cases ho : p.opened
    · simp [readLoop, ho]
    · cases hs : (iteration st p).stop
      · obtain ⟨h1, h2, h3, h4⟩ := ih (iteration st p).state
        have hread : ((iteration st p).effects.filter Effect.isRead).length = 1 := by
          cases hp : p.poll with
          | none => simp [iteration, hp] at hs
          | some textData =>
            simp only [iteration, hp, handleChunk]
            split
            · simp [Effect.isRead]
            · split
              · simp only [flushCheck]
                split <;> simp [Effect.isRead]
              · simp [Effect.isRead]
        refine ⟨?_, ?_, ?_, ?_⟩
        · simp [readLoop, ho, hs, h1]
        · simp [readLoop, ho, hs, h2]
        · simp only [List.cons_append, readLoop_cons_continue _ _ _ ho hs]
          simp only [posted, List.filterMap_append] at h3 ⊢
          rw [h3]
        · simp only [List.cons_append, readLoop_cons_continue _ _ _ ho hs]
          simp only [List.filter_append, List.length_append, hread, List.length_cons]
          omega
      · have hread : ((iteration st p).effects.filter Effect.isRead).length ≤ 1 := by
          cases hp : p.poll with
          | none => simp [iteration, hp, Effect.isRead]
          | some textData =>
            have : (iteration st p).stop = false := by
              simp only [iteration, hp, handleChunk]
              split
              · rfl
              · split
                · simp only [flushCheck]; split <;> rfl
                · rfl
            rw [this] at hs; cases hs
        simp [readLoop, ho, hs]
        omega

/-- Witness for C9 (amended): a `W:` chunk, then a failed poll, then more input. -/
theorem readLoop_stops_on_failure_witness :
    readLoop { waveBuffer := [], lastSendTime := 0 }
      ([{ opened := true, poll := some "W:5", now := 1, now2 := 1 }] ++
        { opened := true, poll := none, now := 2, now2 := 2 } ::
        [{ opened := true, poll := some "W:6", now := 50, now2 := 50 }]) =
    readLoop { waveBuffer := [], lastSendTime := 0 }
      ([{ opened := true, poll := some "W:5", now := 1, now2 := 1 }] ++
        [{ opened := true, poll := none, now := 2, now2 := 2 }]) :=
  (readLoop_stops_on_failure { waveBuffer := [], lastSendTime := 0 }
    [{ opened := true, poll := some "W:5", now := 1, now2 := 1 }]
    { opened := true, poll := none, now := 2, now2 := 2 }
    [{ opened := true, poll := some "W:6", now := 50, now2 := 50 }] rfl).1

/-! ## The dispatcher -/

/-- C10, as stated, fails: with device 0 connected and opened, a `CONNECT`
message makes the handler call `open`, `selectConfiguration` and
`claimInterface` again, post `STATUS: CONNECTED` and start another read loop. -/
theorem connect_while_connected_not_noop :
    onmessage { usbDevice := some { id := 0, opened := true } }
      { getDevices := .ok [{ id := 0, opened := true }], deviceOpen := none,
        selectConfiguration := none, claimInterface := none, closeRejects := false,
        transferOutRejects := false } .connect =
    ({ usbDevice := some { id := 0, opened := true } },
      [.getDevices, .deviceOpen, .selectConfiguration 1, .claimInterface 0,
        .postMessage (.status "CONNECTED"), .startReadLoop]) := by
  rfl

/-- C10 (amended): `CONNECT` is handled without regard to the current session:
the calls made and the messages posted are those of a `CONNECT` received while
disconnected; when a device is authorized and `open`, `selectConfiguration` and
`claimInterface` succeed, the handle is set to the first device, `STATUS:
CONNECTED` is posted and a read loop is started. -/
theorem connect_ignores_session (w : Worker) (env : Env) :
    (onmessage w env .connect).2 = (onmessage { usbDevice := none } env .connect).2 ∧
    (∀ d ds, env.getDevices = .ok (d :: ds) → env.deviceOpen = none →
      env.selectConfiguration = none → env.claimInterface = none →
      onmessage w env .connect =
        ({ usbDevice := some { d with opened := true } },
          [.getDevices, .deviceOpen, .selectConfiguration 1, .claimInterface 0,
            .postMessage (.status "CONNECTED"), .startReadLoop])) := by
  refine ⟨?_, ?_⟩
  · simp only [onmessage, onConnect]
    cases env.getDevices with
    | error msg => rfl
    | ok devices =>
      cases devices with
      | nil => rfl
      | cons d ds =>
        cases env.deviceOpen <;> cases env.selectConfiguration <;>
          cases env.claimInterface <;> rfl
  · intro d ds hg ho hs hc
    simp [onmessage, onConnect, hg, ho, hs, hc]

/-! ## Order and conservation of samples -/

theorem sampleOf_of_U1 (textData : String) (h : startsWith textData "U1:" = true) :
    sampleOf textData = none := by
  unfold sampleOf
  cases hW : startsWith textData "W:"
  · simp
  · rw [not_startsWith_U1_of_W _ hW] at h; cases h

theorem pushSample_eq (buf : List JSNum) (textData : String)
    (hW : startsWith textData "W:" = true) :
    pushSample buf (substring textData 2) = buf ++ (sampleOf textData).toList := by
  unfold pushSample sampleOf
  rw [hW]
  cases h : (parseInt (substring textData 2)).isNaN <;> simp [h]

theorem flushCheck_conserves (st : LoopState) (now now2 : Int) :
    (waveBatches (flushCheck st now now2).effects).flatten ++
      (flushCheck st now now2).state.waveBuffer = st.waveBuffer := by
  unfold flushCheck
  split <;> simp [waveBatches]

theorem iteration_conserves (st : LoopState) (t : Tick) :
    (waveBatches (iteration st t).effects).flatten ++ (iteration st t).state.waveBuffer =
      st.waveBuffer ++ t.poll.toList.filterMap sampleOf := by
  cases hp : t.poll with
  | none => simp [iteration, hp, waveBatches]
  | some textData =>
    simp only [iteration, hp, handleChunk]
    cases hU : startsWith textData "U1:"
    · cases hW : startsWith textData "W:"
      · have : sampleOf textData = none := by simp [sampleOf, hW]
        simp [waveBatches, this]
      · have h := flushCheck_conserves
          { st with waveBuffer := pushSample st.waveBuffer (substring textData 2) } t.now t.now2
        rw [pushSample_eq _ _ hW] at h
        simp only [Bool.false_eq_true, if_false, if_true] at h ⊢
        rw [pushSample_eq _ _ hW]
        cases hs : sampleOf textData <;> simp [hs, waveBatches] at h ⊢ <;> exact h
    · simp [waveBatches, sampleOf_of_U1 _ hU]

theorem readLoop_conserves (st : LoopState) (ticks : List Tick) :
    (waveBatches (readLoop st ticks).effects).flatten ++ (readLoop st ticks).state.waveBuffer =
      st.waveBuffer ++ (readLoop st ticks).received.filterMap sampleOf := by
  induction ticks generalizing st with
  | nil => simp [readLoop, waveBatches]
  | cons t ts ih =>
    cases ho : t.opened
    · simp [readLoop, ho, waveBatches]
    · cases hs : (iteration st t).stop
      · rw [readLoop_cons_continue _ _ _ ho hs]
        have h1 := iteration_conserves st t
        have h2 := ih (iteration st t).state
        simp only [waveBatches, List.filterMap_append, List.flatten_append,
          List.append_assoc] at h1 h2 ⊢
        rw [h2, ← List.append_assoc, h1, List.append_assoc]
      · have hp : t.poll = none := by
          cases hp : t.poll with
          | none => rfl
          | some textData =>
            have : (iteration st t).stop = false := by
              simp only [iteration, hp, handleChunk]
              split
              · rfl
              · split
                · simp only [flushCheck]; split <;> rfl
                · rfl
            rw [this] at hs; cases hs
        have h1 := iteration_conserves st t
        simp only [hp, Option.toList, List.filterMap_nil, List.append_nil] at h1
        simp [readLoop, ho, hs, h1]

theorem readLoop_received (st : LoopState) (ticks : List Tick) :
    (readLoop st ticks).received <+: ticks.filterMap Tick.poll := by
  induction ticks generalizing st with
  | nil => simp [readLoop]
  | cons t ts ih =>
    cases ho : t.opened
    · simp [readLoop, ho]
    · cases hs : (iteration st t).stop
      · rw [readLoop_cons_continue _ _ _ ho hs]
        cases hp : t.poll with
        | none => simp [iteration, hp] at hs
        | some textData =>
          simp only [Option.toList, List.filterMap_cons, hp, List.singleton_append]
          exact (List.prefix_cons_inj textData).mpr (ih _)
      · simp [readLoop, ho, hs]

theorem readLoop_received_all (st : LoopState) (ticks : List Tick)
    (hall : ∀ t ∈ ticks, t.opened = true ∧ t.poll ≠ none) :
    (readLoop st ticks).received = ticks.filterMap Tick.poll := by
  induction ticks generalizing st with
  | nil => simp [readLoop]
  | cons t ts ih =>
    obtain ⟨ho, hp⟩ := hall t (List.mem_cons_self _ _)
    cases hpoll : t.poll with
    | none => exact absurd hpoll hp
    | some textData =>
      have hs : (iteration st t).stop = false := by
        simp only [iteration, hpoll, handleChunk]
        split
        · rfl
        · split
          · simp only [flushCheck]; split <;> rfl
          · rfl
      rw [readLoop_cons_continue _ _ _ ho hs]
      simp only [hpoll, Option.toList, List.filterMap_cons, List.singleton_append]
      rw [ih _ (fun t ht => hall t (List.mem_cons_of_mem _ ht))]

/-- C2: after any number of inputs, the `WAVE_DATA` batches posted so far, in
order, followed by the pending buffer, are exactly the sample values parsed
from the chunks received so far, in arrival order; the chunks received are an
initial segment of the successful polls, and all of them while the loop runs.
For instance `W:1`, `W:2`, `W:3` with the flush on the third gives one batch
`[1, 2, 3]`. -/
theorem samples_conserved (start : Int) (ticks : List Tick) (n : Nat) :
    (waveBatches (startReadLoop start (ticks.take n)).effects).flatten ++
        (startReadLoop start (ticks.take n)).state.waveBuffer =
      (startReadLoop start (ticks.take n)).received.filterMap sampleOf ∧
    (startReadLoop start (ticks.take n)).received <+: (ticks.take n).filterMap Tick.poll ∧
    ((∀ t ∈ ticks.take n, t.opened = true ∧ t.poll ≠ none) →
      (startReadLoop start (ticks.take n)).received = (ticks.take n).filterMap Tick.poll) ∧
    posted (startReadLoop 0
      [{ opened := true, poll := some "W:1", now := 5, now2 := 5 },
       { opened := true, poll := some "W:2", now := 10, now2 := 10 },
       { opened := true, poll := some "W:3", now := 35, now2 := 36 }]).effects =
      [.waveData [.int 1, .int 2, .int 3]] := by
  refine ⟨?_, readLoop_received _ _, readLoop_received_all _ _, by decide⟩
  have h := readLoop_conserves { waveBuffer := [], lastSendTime := start } (ticks.take n)
  simpa [startReadLoop] using h

/-! ## Spacing of the flushes -/

theorem iteration_stop_iff (st : LoopState) (t : Tick) :
    (iteration st t).stop = true ↔ t.poll = none := by
  cases hp : t.poll with
  | none => simp [iteration, hp]
  | some textData =>
    simp only [iteration, hp, handleChunk]
    constructor
    · intro h
      split at h
      · cases h
      · split at h
        · simp only [flushCheck] at h; split at h <;> cases h
        · cases h
    · intro h; cases h

theorem iteration_flushes (st : LoopState) (t : Tick) :
    ((iteration st t).flushes = [] ∧
      (waveBatches (iteration st t).effects).length = 0 ∧
      (iteration st t).state.lastSendTime = st.lastSendTime) ∨
    ((iteration st t).flushes = [{ checkedAt := t.now, resetAt := t.now2 }] ∧
      (waveBatches (iteration st t).effects).length = 1 ∧
      (iteration st t).state.lastSendTime = t.now2 ∧ t.now - st.lastSendTime > 30) := by
  cases hp : t.poll with
  | none => left; simp [iteration, hp, waveBatches]
  | some textData =>
    simp only [iteration, hp, handleChunk]
    split
    · left; simp [waveBatches]
    · split
      · simp only [flushCheck]
        split
        · rename_i h; right; simp [waveBatches, h.1]
        · left; simp [waveBatches]
      · left; simp [waveBatches]

theorem readLoop_flushes_chain (a : Flush) (st : LoopState) (c : Int) (ticks : List Tick)
    (hmono : ClockMonotone c ticks) (ha : a.resetAt = st.lastSendTime)
    (hle : a.checkedAt ≤ a.resetAt) :
    List.Chain Separated a (readLoop st ticks).flushes := by
  induction ticks generalizing a st c with
  | nil => simp [readLoop]
  | cons t ts ih =>
    obtain ⟨_, h12, hrest⟩ := hmono
    cases ho : t.opened
    · simp [readLoop, ho]
    · cases hs : (iteration st t).stop
      · rw [readLoop_cons_continue _ _ _ ho hs]
        rcases iteration_flushes st t with ⟨hf, _, hl⟩ | ⟨hf, _, hl, hgt⟩
        · simp only [hf, List.nil_append]
          exact ih a _ _ hrest (ha.trans hl.symm) hle
        · simp only [hf, List.singleton_append]
          refine List.Chain.cons ⟨hle, ?_, h12⟩ (ih _ _ _ hrest hl.symm h12)
          simpa [ha] using hgt
      · have hp := (iteration_stop_iff st t).mp hs
        simp [readLoop, ho, hs, iteration, hp]

theorem readLoop_flushes_length (st : LoopState) (ticks : List Tick) :
    (waveBatches (readLoop st ticks).effects).length = (readLoop st ticks).flushes.length := by
  induction ticks generalizing st with
  | nil => simp [readLoop, waveBatches]
  | cons t ts ih =>
    cases ho : t.opened
    · simp [readLoop, ho, waveBatches]
    · cases hs : (iteration st t).stop
      · rw [readLoop_cons_continue _ _ _ ho hs]
        have h2 := ih (iteration st t).state
        simp only [waveBatches, List.filterMap_append, List.length_append] at h2 ⊢
        rcases iteration_flushes st t with ⟨hf, hw, _⟩ | ⟨hf, hw, _⟩ <;>
          simp only [waveBatches] at hw <;> simp [hf, hw, h2]
      · have hp := (iteration_stop_iff st t).mp hs
        simp [readLoop, ho, hs, iteration, hp, waveBatches]

/-- C8: with a clock that does not go backwards, the flushes of one run of the
loop form a chain in which each flush is checked more than 30 ms after the
previous one was completed, the first one more than 30 ms after the loop
started; there is one flush per `WAVE_DATA` message. Hence the first readings
of two successive flushes, and their last readings, differ by more than 30. -/
theorem flushes_separated (start : Int) (ticks : List Tick)
    (hmono : ClockMonotone start ticks) :
    List.Chain Separated { checkedAt := start, resetAt := start }
      (startReadLoop start ticks).flushes ∧
    (waveBatches (startReadLoop start ticks).effects).length =
      (startReadLoop start ticks).flushes.length ∧
    (∀ f ∈ (startReadLoop start ticks).flushes.head?, f.checkedAt - start > 30) ∧
    (∀ i (h : i + 1 < (startReadLoop start ticks).flushes.length),
      ((startReadLoop start ticks).flushes.get ⟨i + 1, h⟩).checkedAt -
        ((startReadLoop start ticks).flushes.get ⟨i, Nat.lt_of_succ_lt h⟩).checkedAt > 30 ∧
      ((startReadLoop start ticks).flushes.get ⟨i + 1, h⟩).resetAt -
        ((startReadLoop start ticks).flushes.get ⟨i, Nat.lt_of_succ_lt h⟩).resetAt > 30) := by
  have hchain : List.Chain Separated { checkedAt := start, resetAt := start }
      (startReadLoop start ticks).flushes :=
    readLoop_flushes_chain _ _ start ticks hmono rfl (le_refl _)
  refine ⟨hchain, readLoop_flushes_length _ _, ?_, ?_⟩
  · intro f hf
    cases hfl : (startReadLoop start ticks).flushes with
    | nil => rw [hfl] at hf; simp at hf
    | cons g gs =>
      rw [hfl] at hf hchain
      simp at hf
      subst hf
      exact (List.chain_cons.mp hchain).1.2.1
  · intro i h
    have hsep := (List.chain_iff_get.mp hchain).2 i (by omega)
    obtain ⟨h1, h2, h3⟩ := hsep
    constructor <;> omega

/-- Witness for C8: two `W:` chunks flushed at 31-32 ms and at 70-71 ms. -/
theorem flushes_separated_witness :
    ClockMonotone 0
      [{ opened := true, poll := some "W:10", now := 31, now2 := 32 },
       { opened := true, poll := some "W:20", now := 70, now2 := 71 }] ∧
    List.Chain Separated { checkedAt := 0, resetAt := 0 }
      (startReadLoop 0
        [{ opened := true, poll := some "W:10", now := 31, now2 := 32 },
         { opened := true, poll := some "W:20", now := 70, now2 := 71 }]).flushes ∧
    (startReadLoop 0
        [{ opened := true, poll := some "W:10", now := 31, now2 := 32 },
         { opened := true, poll := some "W:20", now := 70, now2 := 71 }]).flushes =
      [{ checkedAt := 31, resetAt := 32 }, { checkedAt := 70, resetAt := 71 }] :=
  ⟨by simp [ClockMonotone],
    (flushes_separated 0
      [{ opened := true, poll := some "W:10", now := 31, now2 := 32 },
       { opened := true, poll := some "W:20", now := 70, now2 := 71 }]
      (by simp [ClockMonotone])).1,
    by decide⟩

/-! ## `parseInt` on decimal integer strings -/

theorem isRadixDigit_ten (c : Char) : isRadixDigit 10 c = isAsciiDigit c := by
  unfold isRadixDigit digitValue isAsciiDigit
  by_cases h1 : 48 ≤ c.toNat ∧ c.toNat ≤ 57
  · simp [h1]; omega
  · by_cases h2 : 97 ≤ c.toNat ∧ c.toNat ≤ 122
    · simp [h1, h2]
    · by_cases h3 : 65 ≤ c.toNat ∧ c.toNat ≤ 90
      · simp [h1, h2, h3]
      · simp [h1, h2, h3]

theorem digitValue_of_digit (c : Char) (h : isAsciiDigit c = true) :
    (digitValue c).getD 0 = c.toNat - 48 := by
  unfold isAsciiDigit at h
  simp at h
  simp [digitValue, h]

theorem not_white_of_digit (c : Char) (h : isAsciiDigit c = true) : isWhiteSpace c = false := by
  unfold isAsciiDigit at h
  simp at h
  unfold isWhiteSpace
  simp
  omega

theorem splitSign_of_digit (c : Char) (s : List Char) (h : isAsciiDigit c = true) :
    splitSign (c :: s) = (false, c :: s) := by
  unfold splitSign
  split
  · rename_i heq
    simp only [List.cons.injEq] at heq
    obtain ⟨rfl, _⟩ := heq
    simp [isAsciiDigit] at h
  · rename_i heq
    simp only [List.cons.injEq] at heq
    obtain ⟨rfl, _⟩ := heq
    simp [isAsciiDigit] at h
  · rfl

theorem splitRadix_of_not_zero (c : Char) (s : List Char) (h : c ≠ '0') :
    splitRadix (c :: s) = (10, c :: s) := by
  unfold splitRadix
  split
  · rename_i heq
    simp only [List.cons.injEq] at heq
    exact absurd heq.1 h
  · rename_i heq
    simp only [List.cons.injEq] at heq
    exact absurd heq.1 h
  · rfl


theorem splitRadix_of_digits (ds : List Char) (hall : ds.all isAsciiDigit = true) :
    splitRadix ds = (10, ds) := by
  unfold splitRadix
  split
  · simp [isAsciiDigit] at hall
  · simp [isAsciiDigit] at hall
  · rfl

theorem takeWhile_digits (ds : List Char) (hall : ds.all isAsciiDigit = true) :
    ds.takeWhile (isRadixDigit 10) = ds := by
  rw [List.takeWhile_eq_self_iff]
  intro c hc
  rw [isRadixDigit_ten]
  exact (List.all_eq_true.mp hall) c hc

theorem foldl_digits (ds : List Char) (hall : ds.all isAsciiDigit = true) (acc : Nat) :
    ds.foldl (fun acc c => acc * 10 + (digitValue c).getD 0) acc =
      ds.foldl (fun acc c => 10 * acc + (c.toNat - 48)) acc := by
  induction ds generalizing acc with
  | nil => rfl
  | cons c cs ih =>
    simp only [List.all_cons, Bool.and_eq_true] at hall
    simp only [List.foldl_cons]
    rw [digitValue_of_digit c hall.1, Nat.mul_comm acc 10]
    exact ih hall.2 _

theorem mathInt_digits (ds : List Char) (hall : ds.all isAsciiDigit = true) :
    mathInt 10 ds = digitsValue ds :=
  foldl_digits ds hall 0

theorem bitLengthAux_le (fuel m k : Nat) (h : m < 2 ^ k) : bitLengthAux fuel m ≤ k := by
  induction fuel generalizing m k with
  | zero => simp [bitLengthAux]
  | succ fuel ih =>
    unfold bitLengthAux
    split
    · exact Nat.zero_le _
    · rename_i hm
      cases k with
      | zero => simp at h; exact absurd h hm
      | succ k =>
        have : m / 2 < 2 ^ k := by
          rw [Nat.div_lt_iff_lt_mul (by norm_num)]
          rw [pow_succ] at h
          exact h
        exact Nat.succ_le_succ (ih _ _ this)

theorem roundToDouble_exact (q e : Nat) (hq : q < 2 ^ 53) :
    roundToDouble (q * 2 ^ e) = q * 2 ^ e ∧ bitLength (q * 2 ^ e) ≤ 53 + e := by
  have hlt : q * 2 ^ e < 2 ^ (53 + e) := by
    rw [pow_add]
    exact Nat.mul_lt_mul_of_pos_right hq (pow_pos (by norm_num) _)
  have hb : bitLength (q * 2 ^ e) ≤ 53 + e := bitLengthAux_le _ _ _ hlt
  refine ⟨?_, hb⟩
  unfold roundToDouble
  simp only
  split
  · rfl
  · rename_i hbits
    have hk : bitLength (q * 2 ^ e) - 53 ≤ e := by omega
    have hk1 : 1 ≤ bitLength (q * 2 ^ e) - 53 := by omega
    have hdvd : 2 ^ (bitLength (q * 2 ^ e) - 53) ∣ q * 2 ^ e :=
      Dvd.dvd.mul_left (pow_dvd_pow 2 hk) q
    have hmod : q * 2 ^ e % 2 ^ (bitLength (q * 2 ^ e) - 53) = 0 :=
      Nat.mod_eq_zero_of_dvd hdvd
    have hhalf : 0 < 2 ^ (bitLength (q * 2 ^ e) - 53 - 1) := pow_pos (by norm_num) _
    rw [hmod]
    have hcond : ¬ (2 ^ (bitLength (q * 2 ^ e) - 53 - 1) < 0 ∨
        (0 = 2 ^ (bitLength (q * 2 ^ e) - 53 - 1) ∧
          q * 2 ^ e / 2 ^ (bitLength (q * 2 ^ e) - 53) % 2 = 1)) := by
      rintro (h | ⟨h, _⟩) <;> omega
    rw [if_neg hcond]
    exact Nat.div_mul_cancel hdvd

theorem toNumber_double (negative : Bool) (q e : Nat) (hq : q < 2 ^ 53) (he : e ≤ 971) :
    toNumber negative (q * 2 ^ e) =
      if q * 2 ^ e = 0 then (if negative then .negZero else .int 0)
      else .int (if negative then -((q * 2 ^ e : Nat) : Int) else ((q * 2 ^ e : Nat) : Int)) := by
  obtain ⟨hr, hb⟩ := roundToDouble_exact q e hq
  have hinf : ¬ 1024 < bitLength (q * 2 ^ e) := by omega
  unfold toNumber
  simp only [hr, hinf, if_false]

theorem isDoubleInt_of_natAbs_le (N : Int) (h : N.natAbs ≤ 2 ^ 53) : IsDoubleInt N := by
  rcases Nat.lt_or_ge N.natAbs (2 ^ 53) with hlt | hge
  · exact ⟨N.natAbs, 0, hlt, by norm_num, by simp⟩
  · exact ⟨1, 53, by norm_num, by norm_num, by omega⟩

theorem toNumber_ne_nan (negative : Bool) (m : Nat) : toNumber negative m ≠ .nan := by
  unfold toNumber
  simp only
  split
  · split <;> simp
  · split
    · split <;> simp
    · simp

theorem parseIntChars_of_sign (l ds : List Char) (negative : Bool)
    (hdrop : l.dropWhile isWhiteSpace = l) (hsign : splitSign l = (negative, ds))
    (hne : ds ≠ []) (hall : ds.all isAsciiDigit = true) :
    parseIntChars l = toNumber negative (digitsValue ds) := by
  unfold parseIntChars
  simp only [hdrop, hsign, splitRadix_of_digits ds hall, takeWhile_digits ds hall,
    mathInt_digits ds hall]
  cases ds with
  | nil => exact absurd rfl hne
  | cons c cs => simp

theorem decimalParts_check (negative neg : Bool) (ds ds0 : List Char)
    (h : (if (!ds0.isEmpty && ds0.all isAsciiDigit) = true then some (neg, ds0) else none) =
      some (negative, ds)) :
    neg = negative ∧ ds0 = ds ∧ ds ≠ [] ∧ ds.all isAsciiDigit = true := by
  split at h
  · rename_i hc
    simp only [Option.some.injEq, Prod.mk.injEq] at h
    obtain ⟨rfl, rfl⟩ := h
    have hc2 := (Bool.and_eq_true _ _).mp hc
    refine ⟨rfl, rfl, ?_, hc2.2⟩
    intro hnil
    rw [hnil] at hc2
    simp at hc2
  · cases h

theorem decimalParts_sound (r : String) (negative : Bool) (ds : List Char)
    (h : decimalParts r = some (negative, ds)) :
    r.toList.dropWhile isWhiteSpace = r.toList ∧ splitSign r.toList = (negative, ds) ∧
      ds ≠ [] ∧ ds.all isAsciiDigit = true ∧ startsWith r "-" = negative := by
  unfold decimalParts at h
  simp only at h
  split at h
  · rename_i ds0 heq
    obtain ⟨rfl, rfl, hne, hall⟩ := decimalParts_check _ _ _ _ h
    refine ⟨?_, ?_, hne, hall, ?_⟩
    · rw [heq]; rfl
    · rw [heq]; rfl
    · unfold startsWith; rw [heq]; simp [String.toList, List.isPrefixOf]
  · rename_i ds0 heq
    obtain ⟨rfl, rfl, hne, hall⟩ := decimalParts_check _ _ _ _ h
    refine ⟨?_, ?_, hne, hall, ?_⟩
    · rw [heq]; rfl
    · rw [heq]; rfl
    · unfold startsWith; rw [heq]; simp [String.toList, List.isPrefixOf]
  · obtain ⟨rfl, hds, hne, hall⟩ := decimalParts_check _ _ _ _ h
    subst hds
    cases hl : r.toList with
    | nil => exact absurd hl hne
    | cons c cs =>
      have hcd : isAsciiDigit c = true := by
        have := hall; rw [hl] at this
        simp only [List.all_cons, Bool.and_eq_true] at this
        exact this.1
      refine ⟨?_, splitSign_of_digit c cs hcd, by simp, by rw [← hl]; exact hall, ?_⟩
      · simp [List.dropWhile, not_white_of_digit c hcd]
      · have hc : c ≠ '-' := by
          intro hc; rw [hc] at hcd; simp [isAsciiDigit] at hcd
        unfold startsWith
        rw [hl]
        simp [String.toList, List.isPrefixOf, Ne.symm hc]

theorem parseInt_of_decimal (r : String) (N : Int) (hdec : decimalValue r = some N)
    (hdbl : IsDoubleInt N) :
    parseInt r = if N = 0 ∧ startsWith r "-" = true then .negZero else .int N := by
  unfold decimalValue at hdec
  cases hp : decimalParts r with
  | none => rw [hp] at hdec; cases hdec
  | some p =>
    obtain ⟨negative, ds⟩ := p
    rw [hp] at hdec
    simp only [Option.map_some', Option.some.injEq] at hdec
    obtain ⟨hdrop, hsign, hne, hall, hstart⟩ := decimalParts_sound r negative ds hp
    have hparse : parseInt r = toNumber negative (digitsValue ds) :=
      parseIntChars_of_sign r.toList ds negative hdrop hsign hne hall
    obtain ⟨q, e, hq, he, hqe⟩ := hdbl
    have habs : N.natAbs = digitsValue ds := by
      rw [← hdec]; cases negative <;> simp
    have hm : digitsValue ds = q * 2 ^ e := habs.symm.trans hqe
    rw [hparse, hstart, hm, toNumber_double negative q e hq he, ← hm]
    have hzero : N = 0 ↔ digitsValue ds = 0 := by
      rw [← habs]; exact Int.natAbs_eq_zero.symm
    by_cases h0 : digitsValue ds = 0
    · have hN : N = 0 := hzero.mpr h0
      cases negative <;> simp [h0, hN]
    · have hN : N ≠ 0 := fun h => h0 (hzero.mp h)
      simp only [h0, hN, if_false, false_and]
      rw [← hdec]

theorem isRadixDigit_sixteen (c : Char) : isRadixDigit 16 c = isHexDigit c := by
  unfold isRadixDigit digitValue isHexDigit
  by_cases h1 : 48 ≤ c.toNat ∧ c.toNat ≤ 57
  · have hd : c.toNat - 48 < 16 := by omega
    simp [h1, hd]
  · by_cases h2 : 97 ≤ c.toNat ∧ c.toNat ≤ 122
    · have hne : ¬ (65 ≤ c.toNat ∧ c.toNat ≤ 70) := by omega
      simp only [h1, h2, hne, if_true, if_false, false_or, or_false]
      by_cases h4 : c.toNat ≤ 102
      · have hd : c.toNat - 97 + 10 < 16 := by omega
        simp [h2.1, h4, hd]
      · have hd : ¬ c.toNat - 97 + 10 < 16 := by omega
        simp [h4, hd]
    · by_cases h3 : 65 ≤ c.toNat ∧ c.toNat ≤ 90
      · have hne : ¬ (97 ≤ c.toNat ∧ c.toNat ≤ 102) := by omega
        simp only [h1, h2, h3, hne, if_true, if_false, false_or, or_false]
        by_cases h4 : c.toNat ≤ 70
        · have hd : c.toNat - 65 + 10 < 16 := by omega
          simp [h3.1, h4, hd]
        · have hd : ¬ c.toNat - 65 + 10 < 16 := by omega
          simp [h4, hd]
      · have hne1 : ¬ (97 ≤ c.toNat ∧ c.toNat ≤ 102) := by omega
        have hne2 : ¬ (65 ≤ c.toNat ∧ c.toNat ≤ 70) := by omega
        simp [h1, h2, h3, hne1, hne2]

theorem isRadixDigit_ten_fun : isRadixDigit 10 = isAsciiDigit := funext isRadixDigit_ten

theorem isRadixDigit_sixteen_fun : isRadixDigit 16 = isHexDigit := funext isRadixDigit_sixteen

theorem takeWhile_isEmpty (p : Char → Bool) (s : List Char) :
    (s.takeWhile p).isEmpty = lacksDigit p s := by
  cases s with
  | nil => rfl
  | cons c cs => cases hc : p c <;> simp [List.takeWhile, lacksDigit, hc]

theorem digits_isEmpty (s : List Char) :
    (List.takeWhile (isRadixDigit (splitRadix s).1) (splitRadix s).2).isEmpty =
      lacksNumberChars s := by
  rw [takeWhile_isEmpty]
  unfold splitRadix lacksNumberChars
  split
  · simp only [isRadixDigit_sixteen_fun]
  · simp only [isRadixDigit_sixteen_fun]
  · simp only [isRadixDigit_ten_fun]

theorem parseInt_nan_iff (r : String) : parseInt r = .nan ↔ lacksNumber r = true := by
  unfold lacksNumber
  rw [← digits_isEmpty]
  unfold parseInt parseIntChars
  simp only
  constructor
  · intro h
    by_contra hne
    rw [if_neg hne] at h
    exact toNumber_ne_nan _ _ h
  · intro h
    rw [if_pos h]

theorem lacksNumber_of_decimal (r : String) (N : Int) (hdec : decimalValue r = some N) :
    lacksNumber r = false := by
  unfold decimalValue at hdec
  cases hp : decimalParts r with
  | none => rw [hp] at hdec; cases hdec
  | some p =>
    obtain ⟨negative, ds⟩ := p
    obtain ⟨hdrop, hsign, hne, hall, _⟩ := decimalParts_sound r negative ds hp
    unfold lacksNumber
    rw [hdrop, hsign, ← digits_isEmpty, splitRadix_of_digits ds hall, takeWhile_digits ds hall]
    cases ds with
    | nil => exact absurd rfl hne
    | cons c cs => rfl

/-- C3, as stated, fails: `9007199254740993` is a decimal integer string, but
the value pushed for the chunk `W:9007199254740993` is 9007199254740992, the
nearest double. -/
theorem wave_decimal_rounded :
    decimalValue "9007199254740993" = some 9007199254740993 ∧
    pushSample [] "9007199254740993" = [.int 9007199254740992] ∧
    (iteration { waveBuffer := [], lastSendTime := 0 }
      { opened := true, poll := some "W:9007199254740993", now := 1, now2 := 1 }).state.waveBuffer
      = [.int 9007199254740992] := by
  decide

/-- C3 (amended): for a chunk `W:` followed by a decimal integer string that
denotes an integer `N` which is exactly a double (as every `N` of absolute
value up to `2 ^ 53` is), the iteration pushes exactly one value at the end of
the buffer and then runs the flush check; the value pushed is the Number `N`,
except that a zero written with a minus sign is pushed as negative zero. -/
theorem iteration_wave_decimal (st : LoopState) (r : String) (N : Int) (opened : Bool)
    (now now2 : Int) (hdec : decimalValue r = some N) (hdbl : IsDoubleInt N) :
    parseInt r = (if N = 0 ∧ startsWith r "-" = true then .negZero else .int N) ∧
    (parseInt r).value? = some N ∧
    (N ≠ 0 → parseInt r = .int N) ∧
    pushSample st.waveBuffer r = st.waveBuffer ++ [parseInt r] ∧
    iteration st { opened := opened, poll := some ("W:" ++ r), now := now, now2 := now2 } =
      { flushCheck { st with waveBuffer := st.waveBuffer ++ [parseInt r] } now now2 with
        effects := .transferIn IN_EP 64 ::
          (flushCheck { st with waveBuffer := st.waveBuffer ++ [parseInt r] } now now2).effects }
    := by
  have hp := parseInt_of_decimal r N hdec hdbl
  have hval : (parseInt r).value? = some N := by
    rw [hp]
    by_cases hc : N = 0 ∧ startsWith r "-" = true
    · rw [if_pos hc, hc.1]; rfl
    · rw [if_neg hc]; rfl
  have hint : N ≠ 0 → parseInt r = .int N := by
    intro hN
    rw [hp, if_neg (fun hc => hN hc.1)]
  have hnan : (parseInt r).isNaN = false := by
    cases hq : parseInt r <;> simp [hq, JSNum.value?, JSNum.isNaN] at hval ⊢
  have hpush : pushSample st.waveBuffer r = st.waveBuffer ++ [parseInt r] := by
    simp [pushSample, hnan]
  refine ⟨hp, hval, hint, hpush, ?_⟩
  simp [iteration, handleChunk_W, hpush]

/-- Witness for C3 (amended): the chunk `W:9007199254740992`, whose value is
`2 ^ 53`, and the chunk `W:-0`. -/
theorem iteration_wave_decimal_witness :
    decimalValue "9007199254740992" = some 9007199254740992 ∧
    IsDoubleInt 9007199254740992 ∧
    pushSample [.int 7] "9007199254740992" = [.int 7] ++ [parseInt "9007199254740992"] ∧
    parseInt "9007199254740992" = .int 9007199254740992 ∧
    parseInt "-0" =
      (if (0 : Int) = 0 ∧ startsWith "-0" "-" = true then JSNum.negZero else JSNum.int 0) ∧
    parseInt "-0" = .negZero ∧ parseInt "0" = .int 0 :=
  ⟨by decide, ⟨1, 53, by decide, by decide, by decide⟩,
    (iteration_wave_decimal { waveBuffer := [.int 7], lastSendTime := 0 } "9007199254740992"
      9007199254740992 true 1 1 (by decide) ⟨1, 53, by decide, by decide, by decide⟩).2.2.2.1,
    by decide,
    (iteration_wave_decimal { waveBuffer := [], lastSendTime := 0 } "-0" 0 true 1 1
      (by decide) ⟨0, 0, by decide, by decide, by decide⟩).1,
    by decide, by decide⟩

/-- C4, as stated, fails: `12abc`, `0x10` and ` 7` are not decimal integer
strings, yet `parseInt` reads 12, 16 and 7 from them and the value is pushed. -/
theorem wave_numeric_start_accepted :
    decimalValue "12abc" = none ∧ pushSample [] "12abc" = [.int 12] ∧
    decimalValue "0x10" = none ∧ pushSample [] "0x10" = [.int 16] ∧
    decimalValue " 7" = none ∧ pushSample [] " 7" = [.int 7] ∧
    (iteration { waveBuffer := [], lastSendTime := 0 }
      { opened := true, poll := some "W:12abc", now := 1, now2 := 1 }).state.waveBuffer
      = [.int 12] := by
  decide

/-- C4 (amended): for a chunk `W:` followed by any remainder, no value is
pushed exactly when `parseInt` gives NaN, which is exactly when the remainder,
after leading white space and one optional sign, is empty, or does not go on
with a decimal digit, or goes on with `0x` / `0X` and no hexadecimal digit (the
empty string, `abc`, `-`, `0x`, `0xg`); then the iteration only runs the flush
check on the unchanged buffer. Such a remainder is never a decimal integer
string. On every other remainder the value `parseInt` reads is pushed. -/
theorem iteration_wave_no_number (st : LoopState) (r : String) (opened : Bool)
    (now now2 : Int) :
    (parseInt r = .nan ↔ lacksNumber r = true) ∧
    (pushSample st.waveBuffer r = st.waveBuffer ↔ lacksNumber r = true) ∧
    (lacksNumber r = true → decimalValue r = none) ∧
    (lacksNumber r = true →
      iteration st { opened := opened, poll := some ("W:" ++ r), now := now, now2 := now2 } =
        { flushCheck st now now2 with
          effects := .transferIn IN_EP 64 :: (flushCheck st now now2).effects }) ∧
    (lacksNumber r = false →
      parseInt r ≠ .nan ∧ pushSample st.waveBuffer r = st.waveBuffer ++ [parseInt r]) := by
  have hiff := parseInt_nan_iff r
  have hpush_nan : parseInt r = .nan → pushSample st.waveBuffer r = st.waveBuffer := by
    intro hnan; simp [pushSample, hnan, JSNum.isNaN]
  have hpush_num : parseInt r ≠ .nan →
      pushSample st.waveBuffer r = st.waveBuffer ++ [parseInt r] := by
    intro hne
    have : (parseInt r).isNaN = false := by
      cases hq : parseInt r <;> simp [hq, JSNum.isNaN] at hne ⊢
    simp [pushSample, this]
  refine ⟨hiff, ?_, ?_, ?_, ?_⟩
  · constructor
    · intro h
      by_contra hl
      have hne : parseInt r ≠ .nan := fun hn => hl (hiff.mp hn)
      rw [hpush_num hne] at h
      simp at h
    · intro hl; exact hpush_nan (hiff.mpr hl)
  · intro hl
    cases hd : decimalValue r with
    | none => rfl
    | some N => rw [lacksNumber_of_decimal r N hd] at hl; cases hl
  · intro hl
    simp [iteration, handleChunk_W, hpush_nan (hiff.mpr hl)]
  · intro hl
    have hne : parseInt r ≠ .nan := by
      intro hn; rw [hiff.mp hn] at hl; cases hl
    exact ⟨hne, hpush_num hne⟩

/-- Witness for C4 (amended): the remainders `0x`, `-0x`, `0xg`, the empty
string and `abc` push nothing; `12abc` pushes. -/
theorem iteration_wave_no_number_witness :
    lacksNumber "0x" = true ∧ lacksNumber "-0x" = true ∧ lacksNumber "0xg" = true ∧
    lacksNumber "" = true ∧ lacksNumber "abc" = true ∧ lacksNumber "12abc" = false ∧
    (pushSample [.int 3] "0x" = [.int 3] ↔ lacksNumber "0x" = true) ∧
    (pushSample [.int 3] "-0x" = [.int 3] ↔ lacksNumber "-0x" = true) ∧
    (pushSample [.int 3] "0xg" = [.int 3] ↔ lacksNumber "0xg" = true) ∧
    (pushSample [.int 3] "12abc" = [.int 3] ↔ lacksNumber "12abc" = true) :=
  ⟨by decide, by decide, by decide, by decide, by decide, by decide,
    (iteration_wave_no_number { waveBuffer := [.int 3], lastSendTime := 0 } "0x" true 1 1).2.1,
    (iteration_wave_no_number { waveBuffer := [.int 3], lastSendTime := 0 } "-0x" true 1 1).2.1,
    (iteration_wave_no_number { waveBuffer := [.int 3], lastSendTime := 0 } "0xg" true 1 1).2.1,
    (iteration_wave_no_number { waveBuffer := [.int 3], lastSendTime := 0 } "12abc" true 1 1).2.1⟩

/-- Witness for C5: the chunk `X:1`. -/
theorem iteration_unrecognized_witness :
    startsWith "X:1" "U1:" = false ∧ startsWith "X:1" "W:" = false ∧
    posted (iteration { waveBuffer := [.int 1], lastSendTime := 0 }
      { opened := true, poll := some "X:1", now := 99, now2 := 99 }).effects = [] ∧
    (iteration { waveBuffer := [.int 1], lastSendTime := 0 }
      { opened := true, poll := some "X:1", now := 99, now2 := 99 }).state =
      { waveBuffer := [.int 1], lastSendTime := 0 } :=
  ⟨by decide, by decide,
    (iteration_unrecognized { waveBuffer := [.int 1], lastSendTime := 0 }
      { opened := true, poll := some "X:1", now := 99, now2 := 99 } "X:1" [] rfl
      (by decide) (by decide)).1,
    (iteration_unrecognized { waveBuffer := [.int 1], lastSendTime := 0 }
      { opened := true, poll := some "X:1", now := 99, now2 := 99 } "X:1" [] rfl
      (by decide) (by decide)).2.1⟩

end UsbWorker
